import Mathlib

/-!
# Verification of the CoNLL-U cleaning utility (`scripts/clean_conllu.py`)

Shallow embedding of the CoNLL-U sentence validator (`CoNLLUValidator`) and
its streaming driver (`clean_conllu_file`).

Modelling conventions:
* Python strings are modelled as lists of characters (`PyStr := List Char`);
  a file is a list of its lines (one `PyStr` per line, terminators stripped
  exactly as the code's `line.rstrip('\n')` does).
* Python's `set` of visited ids / token ids is modelled as a `List Int`
  used only through membership and duplicate-free insertion
  (`List.insert`), which matches set semantics observably.
* The `while` loop of `_check_no_cycles` is modelled with explicit fuel
  `tokens.length + 1`; the lemma `walkChain_fuel_stable` below proves that
  any fuel of at least `(size of unvisited key set) + 1` computes the same
  answer, so this bound is exactly the loop's semantics (each iteration of
  the Python loop either exits or adds one fresh dictionary key to
  `visited`, hence at most `|keys| + 1 ≤ tokens.length + 1` iterations).
* The dict comprehension `{t['id']: t['head'] for t in tokens}` gives the
  *last* binding for a duplicated key, modelled by `find?` on the reversed
  token list (`headOf?`).
-/

/-- A Python string, as its list of characters. -/
abbrev PyStr := List Char

/-! ## Python string primitives used by the script -/

/-- Python `s.split('\t')`: split on every tab; `''.split('\t') == ['']`. -/
def splitTab : PyStr → List PyStr
  | [] => [[]]
  | c :: rest =>
    match splitTab rest with
    | [] => [[]]
    | f :: fs => if c = '\t' then [] :: f :: fs else (c :: f) :: fs

/-- Python whitespace for `str.strip()` / `str.rstrip()` (ASCII range). -/
def pyIsSpace (c : Char) : Bool :=
  c = ' ' || c = '\t' || c = '\n' || c = '\r' || c = '\x0b' || c = '\x0c'

/-- Python `line.strip() == ''`: the line consists only of whitespace. -/
def pyIsBlank (l : PyStr) : Bool := l.all pyIsSpace

/-- Python `line.startswith('#')`. -/
def startsWithHash : PyStr → Bool
  | '#' :: _ => true
  | _ => false

/-- Python `line.rstrip('\n')`: drop every trailing newline character. -/
def rstripNl (l : PyStr) : PyStr := (l.reverse.dropWhile (fun c => c = '\n')).reverse

/-- Python `s.strip()` with no argument: strip whitespace from both ends. -/
def pyStripWs (l : PyStr) : PyStr :=
  ((l.dropWhile pyIsSpace).reverse.dropWhile pyIsSpace).reverse

/-- Digit run acceptable to Python `int()` after the optional sign: ASCII
digits with single underscores allowed strictly between digits. -/
def pyDigitsUS : PyStr → Bool
  | [] => false
  | [c] => c.isDigit
  | c :: '_' :: rest => c.isDigit && pyDigitsUS rest
  | c :: rest => c.isDigit && pyDigitsUS rest

/-- Numeric value of a digit-and-underscore run. -/
def pyDigitsVal (l : PyStr) : Nat :=
  (l.filter (fun c => c ≠ '_')).foldl (fun acc c => acc * 10 + (c.toNat - 48)) 0

/-- Python `int(s)`: strip whitespace, optional single sign, digit run;
`none` models the `ValueError` branch. -/
def pyToInt (l : PyStr) : Option Int :=
  match pyStripWs l with
  | '+' :: rest => if pyDigitsUS rest then some (pyDigitsVal rest : Int) else none
  | '-' :: rest => if pyDigitsUS rest then some (-(pyDigitsVal rest : Int)) else none
  | rest => if pyDigitsUS rest then some (pyDigitsVal rest : Int) else none

/-- Python `line.split('=', 1)`: the parts before and after the first `'='`. -/
def splitOnceEq : PyStr → PyStr × PyStr
  | [] => ([], [])
  | c :: rest =>
    if c = '=' then ([], rest)
    else
      match splitOnceEq rest with
      | (a, b) => (c :: a, b)

/-- Rendering of a natural number as Python `str` does. -/
def renderNat (n : Nat) : PyStr := (toString n).data

/-- Rendering of an integer as Python `str` does. -/
def renderInt (i : Int) : PyStr := (toString i).data

/-- Rendering of a Python list of ints inside an f-string: `[1, 2]`. -/
def renderIntList (l : List Int) : PyStr :=
  ("[").data ++ List.intercalate ((", ").data) (l.map renderInt) ++ ("]").data

/-! ## Data model of `CoNLLUValidator.validate_sentence` -/

/-- The per-token record built at clean_conllu.py:75-83 (the `lemma` key is
spelled `lemma_` because `lemma` is a Lean keyword). -/
structure Token where
  id : Int
  form : PyStr
  lemma_ : PyStr
  upos : PyStr
  head : Int
  deprel : PyStr
  line_num : Nat
deriving DecidableEq, Repr

/-- The accumulator of the parsing loop (clean_conllu.py:45-86): `tokens`,
`roots`, the `token_ids` set, and the `self.errors` list. -/
structure ParsedSentence where
  tokens : List Token
  roots : List Int
  token_ids : List Int
  errors : List PyStr
deriving DecidableEq, Repr

/-- The state at entry of the parsing loop (with `self.errors` just reset). -/
def initPS : ParsedSentence := ⟨[], [], [], []⟩

/-- `f"Line {line_num}: Expected 10 fields, got {len(fields)}"`. -/
def errFieldCount (line_num nfields : Nat) : PyStr :=
  ("Line ").data ++ renderNat line_num ++ (": Expected 10 fields, got ").data
    ++ renderNat nfields

/-- `f"Line {line_num}: Invalid token ID or head: {token_id}, {head}"`. -/
def errBadInt (line_num : Nat) (token_id head : PyStr) : PyStr :=
  ("Line ").data ++ renderNat line_num ++ (": Invalid token ID or head: ").data
    ++ token_id ++ ((", ").data) ++ head

/-- `"Empty sentence"`. -/
def emptySentenceMsg : PyStr := ("Empty sentence").data

/-- `"No root found (no token with head=0)"`. -/
def noRootMsg : PyStr := ("No root found (no token with head=0)").data

/-- `f"Multiple roots found: tokens {roots} all have head=0"`. -/
def multiRootMsg (roots : List Int) : PyStr :=
  ("Multiple roots found: tokens ").data ++ renderIntList roots
    ++ (" all have head=0").data

/-- `f"Token {token['id']} has invalid head {token['head']}"`. -/
def invalidHeadMsg (id head : Int) : PyStr :=
  ("Token ").data ++ renderInt id ++ (" has invalid head ").data ++ renderInt head

/-- `"Dependency cycle detected"`. -/
def cycleMsg : PyStr := ("Dependency cycle detected").data

/-- `f"Token {token['id']}: Empty or missing form"`. -/
def missingFormMsg (id : Int) : PyStr :=
  ("Token ").data ++ renderInt id ++ ((": Empty or missing form").data)

/-- `f"Token {token['id']}: Empty or missing UPOS"`. -/
def missingUposMsg (id : Int) : PyStr :=
  ("Token ").data ++ renderInt id ++ ((": Empty or missing UPOS").data)

/-- `f"Token {token['id']}: Empty or missing deprel"`. -/
def missingDeprelMsg (id : Int) : PyStr :=
  ("Token ").data ++ renderInt id ++ ((": Empty or missing deprel").data)

/-- One iteration of the parsing loop (clean_conllu.py:49-86) on line number
`line_num` with content `line`. -/
def processLine (st : ParsedSentence) (line_num : Nat) (line : PyStr) : ParsedSentence :=
  let fields := splitTab line
  if fields.length ≠ 10 then
    { st with errors := st.errors ++ [errFieldCount line_num fields.length] }
  else
    let token_id := fields.getD 0 []
    let form := fields.getD 1 []
    let lemma_ := fields.getD 2 []
    let upos := fields.getD 3 []
    let head := fields.getD 6 []
    let deprel := fields.getD 7 []
    -- Skip multiword tokens and empty nodes for dependency validation
    if token_id.contains '-' || token_id.contains '.' then st
    else
      match pyToInt token_id, pyToInt head with
      | some token_id_int, some head_int =>
        { st with
          token_ids := st.token_ids.insert token_id_int
          roots := if head_int = 0 then st.roots ++ [token_id_int] else st.roots
          tokens := st.tokens ++
            [⟨token_id_int, form, lemma_, upos, head_int, deprel, line_num⟩] }
      | _, _ =>
        { st with errors := st.errors ++ [errBadInt line_num token_id head] }

/-- The parsing loop from line number `j` onward (`enumerate(sentence_lines, 1)`
starts at `j = 1`). -/
def parseFrom (st : ParsedSentence) (j : Nat) : List PyStr → ParsedSentence
  | [] => st
  | line :: rest => parseFrom (processLine st j line) (j + 1) rest

/-- The full parsing loop of clean_conllu.py:49-86. -/
def parseSentence (sentence_lines : List PyStr) : ParsedSentence :=
  parseFrom initPS 1 sentence_lines

/-- `token_heads[current]` for the dict `{t['id']: t['head'] for t in tokens}`;
a duplicated id keeps the *last* token's head, hence `find?` on the reverse. -/
def headOf? (tokens : List Token) (i : Int) : Option Int :=
  (tokens.reverse.find? (fun t => t.id == i)).map Token.head

/-- The `while` loop of `_check_no_cycles` (clean_conllu.py:122-126), with
explicit fuel (see the module docstring for the adequacy argument). -/
def walkChain (tokens : List Token) : Nat → List Int → Int → Bool
  | 0, _, _ => true
  | fuel + 1, visited, current =>
    if current ≠ 0 ∧ current ∈ tokens.map Token.id then
      if current ∈ visited then false -- Cycle detected
      else walkChain tokens fuel (visited.insert current) ((headOf? tokens current).getD 0)
    else true

/-- `_check_no_cycles` (clean_conllu.py:114-128): walk the head chain from
every token. -/
def check_no_cycles (tokens : List Token) : Bool :=
  tokens.all (fun start_token => walkChain tokens (tokens.length + 1) [] start_token.id)

/-- The root-count check (clean_conllu.py:89-92). -/
def rootErrors (roots : List Int) : List PyStr :=
  if roots.length = 0 then [noRootMsg]
  else if roots.length > 1 then [multiRootMsg roots]
  else []

/-- The head-reference check (clean_conllu.py:95-97). -/
def headErrors (token_ids : List Int) : List Token → List PyStr
  | [] => []
  | t :: rest =>
    (if t.head ≠ 0 ∧ t.head ∉ token_ids then [invalidHeadMsg t.id t.head] else [])
      ++ headErrors token_ids rest

/-- The required-field check for one token (clean_conllu.py:105-110). -/
def fieldErrorsTok (t : Token) : List PyStr :=
  (if t.form.isEmpty || t.form = ['_'] then [missingFormMsg t.id] else [])
    ++ (if t.upos.isEmpty || t.upos = ['_'] then [missingUposMsg t.id] else [])
    ++ (if t.deprel.isEmpty || t.deprel = ['_'] then [missingDeprelMsg t.id] else [])

/-- The required-field check (clean_conllu.py:104-110). -/
def fieldErrors : List Token → List PyStr
  | [] => []
  | t :: rest => fieldErrorsTok t ++ fieldErrors rest

/-- `validate_sentence` (clean_conllu.py:28-112): verdict plus the final
`self.errors` list. -/
def validate_sentence (sentence_lines : List PyStr) : Bool × List PyStr :=
  if sentence_lines.isEmpty then (false, [emptySentenceMsg])
  else
    let ps := parseSentence sentence_lines
    let errs :=
      ps.errors
        ++ rootErrors ps.roots
        ++ headErrors ps.token_ids ps.tokens
        ++ (if check_no_cycles ps.tokens then [] else [cycleMsg])
        ++ fieldErrors ps.tokens
    (errs.isEmpty, errs)

/-! ## The validator object (clean_conllu.py:22-132)

The instance state is exactly the `self.errors` list; `validate_sentence`
overwrites it (`self.errors = []`, line 39) before any check runs. -/

/-- The `CoNLLUValidator` instance state. -/
structure Validator where
  errors : List PyStr
deriving DecidableEq, Repr

/-- A `validator.validate_sentence(lines)` call: the prior instance state is
discarded by `self.errors = []` (line 39); the verdict and the new state are
returned. -/
def validateMethod (_v : Validator) (sentence_lines : List PyStr) : Bool × Validator :=
  match validate_sentence sentence_lines with
  | (ok, errs) => (ok, ⟨errs⟩)

/-- `get_errors` (clean_conllu.py:130-132). -/
def get_errors (v : Validator) : List PyStr := v.errors

/-- Validating a whole history of sentences on one instance, in a tight loop. -/
def runValidator (v : Validator) : List (List PyStr) → Validator
  | [] => v
  | s :: rest => runValidator (validateMethod v s).2 rest

/-! ## The streaming driver `clean_conllu_file` (clean_conllu.py:135-209) -/

/-- The driver's loop state: output lines written so far, the three counters,
and the per-sentence buffers. -/
structure DriverState where
  out : List PyStr
  valid_sentences : Nat
  invalid_sentences : Nat
  total_sentences : Nat
  current_sentence : List PyStr
  current_comments : List PyStr
  sent_id : Option PyStr
deriving DecidableEq, Repr

/-- The driver state before the first line is read. -/
def initDS : DriverState := ⟨[], 0, 0, 0, [], [], none⟩

/-- The shared body of the two sentence-completion sites
(clean_conllu.py:167-180 and 190-203): count the sentence, validate it, and
on success write comments, token lines and one blank line. -/
def finishSentence (st : DriverState) : DriverState :=
  if (validate_sentence st.current_sentence).1 then
    { st with
      out := st.out ++ st.current_comments ++ st.current_sentence ++ [[]]
      valid_sentences := st.valid_sentences + 1
      total_sentences := st.total_sentences + 1 }
  else
    { st with
      invalid_sentences := st.invalid_sentences + 1
      total_sentences := st.total_sentences + 1 }

/-- The blank-line branch (clean_conllu.py:164-184): flush a pending sentence
and clear the buffers; a blank line with no pending tokens is a no-op. -/
def onBlankLine (st : DriverState) : DriverState :=
  if st.current_sentence.isEmpty then st
  else
    { finishSentence st with
      current_sentence := []
      current_comments := []
      sent_id := none }

/-- End-of-stream handling (clean_conllu.py:190-203): a pending final
sentence is counted and written exactly like the blank-line case (the
buffers are simply abandoned). -/
def atEOF (st : DriverState) : DriverState :=
  if st.current_sentence.isEmpty then st else finishSentence st

/-- One iteration of the driver loop (clean_conllu.py:157-187) on one raw
input line. -/
def processDriverLine (st : DriverState) (raw : PyStr) : DriverState :=
  let line := rstripNl raw
  if startsWithHash line then
    let st1 := { st with current_comments := st.current_comments ++ [line] }
    if (("# sent_id").data).isPrefixOf line then
      { st1 with
        sent_id := some (if line.contains '=' then pyStripWs (splitOnceEq line).2
                         else renderNat (st.total_sentences + 1)) }
    else st1
  else if pyIsBlank line then onBlankLine st
  else { st with current_sentence := st.current_sentence ++ [line] }

/-- The driver loop over a list of raw input lines. -/
def runLines (st : DriverState) : List PyStr → DriverState
  | [] => st
  | line :: rest => runLines (processDriverLine st line) rest

/-- `clean_conllu_file` on an input file given as its list of lines: the
final driver state (output lines, counters). -/
def clean_conllu_file (input_lines : List PyStr) : DriverState :=
  atEOF (runLines initDS input_lines)

/-- The success-rate computation of the final summary (clean_conllu.py:209).
The conditional expression guards the division: it is evaluated only when
`total_sentences > 0`; `none` models the `"  Success rate: 0%"` branch, in
which no division happens.  (The `:.1f` float formatting is display only and
is not modelled; the value is the exact rational `valid/total*100`.) -/
def success_rate (valid total : Nat) : Option ℚ :=
  if 0 < total then some ((valid : ℚ) / (total : ℚ) * 100) else none

/-! ## Structural lemmas about the parsing loop -/

/-- Lines 52-54: a wrong field count appends one diagnostic and nothing else. -/
theorem processLine_badCount (st : ParsedSentence) (j : Nat) (line : PyStr)
    (h : (splitTab line).length ≠ 10) :
    processLine st j line =
      { st with errors := st.errors ++ [errFieldCount j (splitTab line).length] } := by
  simp only [processLine]
  rw [if_pos h]

/-- Lines 58-60: a 10-field line whose id contains `-` or `.` is skipped:
the parse state is returned unchanged. -/
theorem processLine_skip (st : ParsedSentence) (j : Nat) (line : PyStr)
    (h : (splitTab line).length = 10)
    (hc : ((splitTab line).getD 0 []).contains '-' = true
          ∨ ((splitTab line).getD 0 []).contains '.' = true) :
    processLine st j line = st := by
  simp only [processLine]
  rw [if_neg (by rw [h]; exact fun hx => hx rfl),
    if_pos (by rw [Bool.or_eq_true]; exact hc)]

/-- Lines 62-83: a parsed structural line adds the token, its id, and (when
`head = 0`) a root; the diagnostics are untouched. -/
theorem processLine_token (st : ParsedSentence) (j : Nat) (line : PyStr)
    (h : (splitTab line).length = 10)
    (hc : (((splitTab line).getD 0 []).contains '-' || ((splitTab line).getD 0 []).contains '.') = false)
    {a b : Int}
    (hi : pyToInt ((splitTab line).getD 0 []) = some a)
    (hh : pyToInt ((splitTab line).getD 6 []) = some b) :
    processLine st j line =
      { st with
        token_ids := st.token_ids.insert a
        roots := if b = 0 then st.roots ++ [a] else st.roots
        tokens := st.tokens ++
          [⟨a, (splitTab line).getD 1 [], (splitTab line).getD 2 [],
            (splitTab line).getD 3 [], b, (splitTab line).getD 7 [], j⟩] } := by
  simp only [processLine]
  rw [if_neg (by rw [h]; exact fun hx => hx rfl),
    if_neg (by rw [hc]; exact Bool.false_ne_true), hi, hh]

/-- Lines 62-67: an unparseable id or head appends one diagnostic. -/
theorem processLine_badInt (st : ParsedSentence) (j : Nat) (line : PyStr)
    (h : (splitTab line).length = 10)
    (hc : (((splitTab line).getD 0 []).contains '-' || ((splitTab line).getD 0 []).contains '.') = false)
    (hi : pyToInt ((splitTab line).getD 0 []) = none
          ∨ pyToInt ((splitTab line).getD 6 []) = none) :
    processLine st j line =
      { st with errors := st.errors ++
          [errBadInt j ((splitTab line).getD 0 []) ((splitTab line).getD 6 [])] } := by
  simp only [processLine]
  rw [if_neg (by rw [h]; exact fun hx => hx rfl),
    if_neg (by rw [hc]; exact Bool.false_ne_true)]
  rcases hi with hi | hi
  · rw [hi]
  · rw [hi]
    cases hk : pyToInt ((splitTab line).getD 0 []) <;> rfl

/-- One parse step appends a (possibly empty) batch of tokens carrying the
current line number, extends `roots` by the new zero-head ids and `token_ids`
by the new ids, and never removes diagnostics. -/
theorem processLine_shape (st : ParsedSentence) (j : Nat) (line : PyStr) :
    ∃ tnew : List Token, ∃ es : List PyStr,
      (processLine st j line).tokens = st.tokens ++ tnew ∧
      (processLine st j line).roots =
        st.roots ++ (tnew.filter (fun t => t.head == 0)).map Token.id ∧
      (∀ x, x ∈ (processLine st j line).token_ids ↔
        x ∈ st.token_ids ∨ x ∈ tnew.map Token.id) ∧
      (processLine st j line).errors = st.errors ++ es ∧
      (∀ t ∈ tnew, t.line_num = j) := by
  simp only [processLine]
  split
  · exact ⟨[], _, by simp, by simp, by simp, rfl, by simp⟩
  · split
    · exact ⟨[], [], by simp, by simp, by simp, by simp, by simp⟩
    · split
      · next a b heq1 heq2 =>
        refine ⟨[⟨a, (splitTab line).getD 1 [], (splitTab line).getD 2 [],
            (splitTab line).getD 3 [], b, (splitTab line).getD 7 [], j⟩], [],
          by simp, ?_, ?_, by simp, by simp⟩
        · by_cases hb : b = 0 <;> simp [hb]
        · intro x
          simp only [List.mem_insert_iff, List.map_cons, List.map_nil, List.mem_cons,
            List.not_mem_nil, or_false]
          tauto
      · exact ⟨[], _, by simp, by simp, by simp, rfl, by simp⟩

/-- The parse loop only appends to the diagnostics list. -/
theorem parseFrom_errors_extend (l : List PyStr) :
    ∀ (st : ParsedSentence) (j : Nat), ∃ es, (parseFrom st j l).errors = st.errors ++ es := by
  induction l with
  | nil => exact fun st j => ⟨[], (List.append_nil _).symm⟩
  | cons line rest ih =>
    intro st j
    obtain ⟨_, es₁, _, _, _, h₁, _⟩ := processLine_shape st j line
    obtain ⟨es₂, h₂⟩ := ih (processLine st j line) (j + 1)
    exact ⟨es₁ ++ es₂, by simp [parseFrom, h₂, h₁]⟩

/-- The parse loop only appends to the token list. -/
theorem parseFrom_tokens_extend (l : List PyStr) :
    ∀ (st : ParsedSentence) (j : Nat), ∃ ts, (parseFrom st j l).tokens = st.tokens ++ ts := by
  induction l with
  | nil => exact fun st j => ⟨[], (List.append_nil _).symm⟩
  | cons line rest ih =>
    intro st j
    obtain ⟨ts₁, _, h₁, _, _, _, _⟩ := processLine_shape st j line
    obtain ⟨ts₂, h₂⟩ := ih (processLine st j line) (j + 1)
    exact ⟨ts₁ ++ ts₂, by simp [parseFrom, h₂, h₁]⟩

/-- Splitting the parse loop at a line boundary. -/
theorem parseFrom_append (l₁ l₂ : List PyStr) :
    ∀ (st : ParsedSentence) (j : Nat),
      parseFrom st j (l₁ ++ l₂) = parseFrom (parseFrom st j l₁) (j + l₁.length) l₂ := by
  induction l₁ with
  | nil => intro st j; simp [parseFrom]
  | cons line rest ih =>
    intro st j
    calc parseFrom st j ((line :: rest) ++ l₂)
        = parseFrom (parseFrom (processLine st j line) (j + 1) rest)
            (j + 1 + rest.length) l₂ := ih _ _
      _ = parseFrom (parseFrom st j (line :: rest)) (j + (line :: rest).length) l₂ := by
          have harith : j + 1 + rest.length = j + (line :: rest).length := by
            simp only [List.length_cons]; omega
          rw [harith]; rfl

/-- The roots list is exactly the ids of the tokens with `head = 0`, in token
order (lines 72-73 append to `roots` exactly when a token with `head = 0` is
appended to `tokens`). -/
theorem parseFrom_roots_spec (l : List PyStr) :
    ∀ (st : ParsedSentence) (j : Nat),
      st.roots = (st.tokens.filter (fun t => t.head == 0)).map Token.id →
      (parseFrom st j l).roots =
        ((parseFrom st j l).tokens.filter (fun t => t.head == 0)).map Token.id := by
  induction l with
  | nil => intro st j h; exact h
  | cons line rest ih =>
    intro st j h
    refine ih _ _ ?_
    obtain ⟨tnew, _, ht, hr, _, _, _⟩ := processLine_shape st j line
    rw [ht, hr, h]
    simp [List.filter_append]

/-- The `token_ids` set holds exactly the ids of the parsed tokens. -/
theorem parseFrom_token_ids_spec (l : List PyStr) :
    ∀ (st : ParsedSentence) (j : Nat),
      (∀ x, x ∈ st.token_ids ↔ x ∈ st.tokens.map Token.id) →
      ∀ x, x ∈ (parseFrom st j l).token_ids ↔ x ∈ (parseFrom st j l).tokens.map Token.id := by
  induction l with
  | nil => intro st j h; exact h
  | cons line rest ih =>
    intro st j h
    refine ih _ _ ?_
    obtain ⟨tnew, _, ht, _, hid, _, _⟩ := processLine_shape st j line
    intro x
    rw [hid x, ht, h]
    simp

/-- `parseSentence` version of `parseFrom_roots_spec`. -/
theorem parseSentence_roots (lines : List PyStr) :
    (parseSentence lines).roots =
      ((parseSentence lines).tokens.filter (fun t => t.head == 0)).map Token.id :=
  parseFrom_roots_spec lines initPS 1 rfl

/-- `parseSentence` version of `parseFrom_token_ids_spec`. -/
theorem parseSentence_token_ids (lines : List PyStr) (x : Int) :
    x ∈ (parseSentence lines).token_ids ↔ x ∈ (parseSentence lines).tokens.map Token.id :=
  parseFrom_token_ids_spec lines initPS 1 (by simp [initPS]) x

/-! ## Discrimination of the diagnostic families by their first character -/

/-- One parse step only adds diagnostics starting with `'L'` (both
`errFieldCount` and `errBadInt` start with `"Line "`). -/
theorem processLine_errors_firstChar (st : ParsedSentence) (j : Nat) (line : PyStr) :
    ∀ s ∈ (processLine st j line).errors, s ∈ st.errors ∨ s.head? = some 'L' := by
  intro s hs
  by_cases h10 : (splitTab line).length = 10
  · by_cases hc : (((splitTab line).getD 0 []).contains '-'
        || ((splitTab line).getD 0 []).contains '.') = true
    · rw [processLine_skip st j line h10 (by rw [Bool.or_eq_true] at hc; exact hc)] at hs
      exact Or.inl hs
    · have hc' : (((splitTab line).getD 0 []).contains '-'
          || ((splitTab line).getD 0 []).contains '.') = false :=
        Bool.eq_false_iff.mpr hc
      cases hi : pyToInt ((splitTab line).getD 0 []) with
      | none =>
        rw [processLine_badInt st j line h10 hc' (Or.inl hi)] at hs
        rcases List.mem_append.mp hs with h | h
        · exact Or.inl h
        · right; rw [List.mem_singleton.mp h]; rfl
      | some a =>
        cases hh : pyToInt ((splitTab line).getD 6 []) with
        | none =>
          rw [processLine_badInt st j line h10 hc' (Or.inr hh)] at hs
          rcases List.mem_append.mp hs with h | h
          · exact Or.inl h
          · right; rw [List.mem_singleton.mp h]; rfl
        | some b =>
          rw [processLine_token st j line h10 hc' hi hh] at hs
          exact Or.inl hs
  · rw [processLine_badCount st j line h10] at hs
    rcases List.mem_append.mp hs with h | h
    · exact Or.inl h
    · right; rw [List.mem_singleton.mp h]; rfl

/-- Every diagnostic produced by the parsing loop itself starts with `'L'`. -/
theorem parseFrom_errors_firstChar (l : List PyStr) :
    ∀ (st : ParsedSentence) (j : Nat), ∀ s ∈ (parseFrom st j l).errors,
      s ∈ st.errors ∨ s.head? = some 'L' := by
  induction l with
  | nil => intro st j s hs; exact Or.inl hs
  | cons line rest ih =>
    intro st j s hs
    rcases ih (processLine st j line) (j + 1) s hs with hmem | hL
    · exact processLine_errors_firstChar st j line s hmem
    · exact Or.inr hL

/-- The cycle diagnostic never collides with a parse-loop diagnostic. -/
theorem cycleMsg_not_mem_parse_errors (lines : List PyStr) :
    cycleMsg ∉ (parseSentence lines).errors := by
  intro hmem
  rcases parseFrom_errors_firstChar lines initPS 1 cycleMsg hmem with h | h
  · simp [initPS] at h
  · simp [cycleMsg] at h

/-- The root-count check emits nothing when there is exactly one root. -/
theorem rootErrors_one (roots : List Int) (h : roots.length = 1) :
    rootErrors roots = [] := by
  simp [rootErrors, h]

/-- The cycle diagnostic never collides with a root-count diagnostic. -/
theorem cycleMsg_not_mem_rootErrors (roots : List Int) :
    cycleMsg ∉ rootErrors roots := by
  unfold rootErrors
  split
  · simp [cycleMsg, noRootMsg]
  · split
    · simp [cycleMsg, multiRootMsg]
    · simp

/-- The head-reference check only emits `invalidHeadMsg`s. -/
theorem headErrors_shape (token_ids : List Int) (ts : List Token) :
    ∀ s ∈ headErrors token_ids ts, ∃ t : Token, s = invalidHeadMsg t.id t.head := by
  induction ts with
  | nil => intro s hs; cases hs
  | cons t rest ih =>
    intro s hs
    unfold headErrors at hs
    rcases List.mem_append.mp hs with h | h
    · refine ⟨t, ?_⟩
      revert h
      split
      · intro h; exact List.mem_singleton.mp h
      · intro h; cases h
    · exact ih s h

/-- The cycle diagnostic never collides with a head-reference diagnostic. -/
theorem cycleMsg_not_mem_headErrors (token_ids : List Int) (ts : List Token) :
    cycleMsg ∉ headErrors token_ids ts := by
  intro hmem
  obtain ⟨t, ht⟩ := headErrors_shape token_ids ts cycleMsg hmem
  have : cycleMsg.head? = some 'T' := by rw [ht]; rfl
  simp [cycleMsg] at this

/-- Every required-field diagnostic starts with `'T'` (`"Token "`). -/
theorem fieldErrors_firstChar (ts : List Token) :
    ∀ s ∈ fieldErrors ts, s.head? = some 'T' := by
  induction ts with
  | nil => intro s hs; cases hs
  | cons t rest ih =>
    intro s hs
    unfold fieldErrors at hs
    rcases List.mem_append.mp hs with h | h
    · unfold fieldErrorsTok at h
      rcases List.mem_append.mp h with h | h
      · rcases List.mem_append.mp h with h | h
        · revert h; split
          · intro h; rw [List.mem_singleton.mp h]; rfl
          · intro h; cases h
        · revert h; split
          · intro h; rw [List.mem_singleton.mp h]; rfl
          · intro h; cases h
      · revert h; split
        · intro h; rw [List.mem_singleton.mp h]; rfl
        · intro h; cases h
    · exact ih s h

/-- The cycle diagnostic never collides with a required-field diagnostic. -/
theorem cycleMsg_not_mem_fieldErrors (ts : List Token) :
    cycleMsg ∉ fieldErrors ts := by
  intro hmem
  have := fieldErrors_firstChar ts cycleMsg hmem
  simp [cycleMsg] at this

/-- A head-reference diagnostic is emitted for every token whose non-zero
head is not a known token id. -/
theorem headErrors_mem (token_ids : List Int) (ts : List Token) (t : Token)
    (ht : t ∈ ts) (h1 : t.head ≠ 0) (h2 : t.head ∉ token_ids) :
    invalidHeadMsg t.id t.head ∈ headErrors token_ids ts := by
  induction ts with
  | nil => cases ht
  | cons u rest ih =>
    unfold headErrors
    rcases List.mem_cons.mp ht with h | h
    · subst h
      rw [if_pos ⟨h1, h2⟩]
      exact List.mem_append.mpr (Or.inl (List.mem_singleton.mpr rfl))
    · exact List.mem_append.mpr (Or.inr (ih h))

/-- The head-reference check emits nothing when every head is valid. -/
theorem headErrors_nil (token_ids : List Int) (ts : List Token)
    (h : ∀ t ∈ ts, t.head = 0 ∨ t.head ∈ token_ids) :
    headErrors token_ids ts = [] := by
  induction ts with
  | nil => rfl
  | cons t rest ih =>
    unfold headErrors
    rw [if_neg, ih (fun u hu => h u (List.mem_cons_of_mem t hu))]
    · rfl
    · rcases h t (List.mem_cons_self t rest) with h0 | hin
      · exact fun hx => hx.1 h0
      · exact fun hx => hx.2 hin

/-- All three required fields of a token are present and not `"_"`. -/
def FieldsOK (t : Token) : Prop :=
  (t.form.isEmpty || t.form = ['_']) = false ∧
  (t.upos.isEmpty || t.upos = ['_']) = false ∧
  (t.deprel.isEmpty || t.deprel = ['_']) = false

instance (t : Token) : Decidable (FieldsOK t) := by
  unfold FieldsOK; infer_instance

/-- The required-field check emits nothing when all fields are populated. -/
theorem fieldErrors_nil (ts : List Token) (h : ∀ t ∈ ts, FieldsOK t) :
    fieldErrors ts = [] := by
  induction ts with
  | nil => rfl
  | cons t rest ih =>
    obtain ⟨h1, h2, h3⟩ := h t (List.mem_cons_self t rest)
    unfold fieldErrors fieldErrorsTok
    rw [h1, h2, h3]
    simpa using ih (fun u hu => h u (List.mem_cons_of_mem t hu))

/-- All diagnostics accumulated by a `validate_sentence` call on a
non-empty sentence, in emission order (parse loop, root count,
head references, cycle check, required fields). -/
def allDiagnostics (lines : List PyStr) : List PyStr :=
  (parseSentence lines).errors
    ++ rootErrors (parseSentence lines).roots
    ++ headErrors (parseSentence lines).token_ids (parseSentence lines).tokens
    ++ (if check_no_cycles (parseSentence lines).tokens then [] else [cycleMsg])
    ++ fieldErrors (parseSentence lines).tokens

/-- On a non-empty sentence the returned diagnostics are `allDiagnostics`. -/
theorem validate_sentence_snd (lines : List PyStr) (h : lines ≠ []) :
    (validate_sentence lines).2 = allDiagnostics lines := by
  have hne : lines.isEmpty = false := by
    cases lines with
    | nil => exact absurd rfl h
    | cons a l => rfl
  simp [validate_sentence, hne, allDiagnostics]

/-- On a non-empty sentence the verdict is the emptiness of
`allDiagnostics` (clean_conllu.py:112). -/
theorem validate_sentence_fst (lines : List PyStr) (h : lines ≠ []) :
    (validate_sentence lines).1 = (allDiagnostics lines).isEmpty := by
  have hne : lines.isEmpty = false := by
    cases lines with
    | nil => exact absurd rfl h
    | cons a l => rfl
  simp [validate_sentence, hne, allDiagnostics]

/-- A list with a member is not empty. -/
theorem isEmpty_false_of_mem {α : Type} {l : List α} {a : α} (h : a ∈ l) :
    l.isEmpty = false := by
  cases l with
  | nil => cases h
  | cons x xs => rfl

/-! ## Cycle detection: `_check_no_cycles` finds a cycle iff one exists

The mathematical cycle predicate `HasHeadCycle` is a nonempty set of ids,
not containing `0`, each of whose heads (under the `token_heads` dict) stays
inside the set — exactly "a head chain that forms a cycle not passing
through 0", covering self-loops and mutual references. -/

/-- One step of the head chain as the dict maps it: `a`'s head entry is `b`. -/
def HeadStep (tokens : List Token) (a b : Int) : Prop := headOf? tokens a = some b

/-- The sentence's structural tokens contain a dependency cycle that does not
pass through `0`. -/
def HasHeadCycle (tokens : List Token) : Prop :=
  ∃ S : List Int, S ≠ [] ∧ (0 : Int) ∉ S ∧
    ∀ i ∈ S, ∃ h, headOf? tokens i = some h ∧ h ∈ S

/-- The dict has an entry for `i` iff `i` is one of the token ids. -/
theorem headOf?_isSome_iff (tokens : List Token) (i : Int) :
    (∃ h, headOf? tokens i = some h) ↔ i ∈ tokens.map Token.id := by
  unfold headOf?
  constructor
  · rintro ⟨h, hh⟩
    cases hf : tokens.reverse.find? (fun t => t.id == i) with
    | none => rw [hf] at hh; cases hh
    | some t =>
      have hp := List.find?_some hf
      have hmem := List.mem_of_find?_eq_some hf
      exact List.mem_map.mpr ⟨t, List.mem_reverse.mp hmem, by rwa [beq_iff_eq] at hp⟩
  · intro hmem
    obtain ⟨t, ht, hid⟩ := List.mem_map.mp hmem
    have hsome : (tokens.reverse.find? (fun t => t.id == i)).isSome = true := by
      rw [List.find?_isSome]
      exact ⟨t, List.mem_reverse.mpr ht, by rw [hid]; exact beq_self_eq_true i⟩
    obtain ⟨u, hu⟩ := Option.isSome_iff_exists.mp hsome
    exact ⟨u.head, by rw [hu]; rfl⟩

/-- An id with a dict entry is a token id. -/
theorem headOf?_mem_keys (tokens : List Token) (i h : Int)
    (hs : headOf? tokens i = some h) : i ∈ tokens.map Token.id :=
  (headOf?_isSome_iff tokens i).mp ⟨h, hs⟩

/-- Inside a closed id set the walk must revisit: with enough fuel it
reports a cycle, whatever the starting visited set. -/
theorem walkChain_in_cycle (tokens : List Token) (S : List Int)
    (h0 : (0 : Int) ∉ S)
    (hcl : ∀ i ∈ S, ∃ h, headOf? tokens i = some h ∧ h ∈ S) :
    ∀ (fuel : Nat) (visited : List Int) (current : Int),
      current ∈ S →
      (S.toFinset \ visited.toFinset).card < fuel →
      walkChain tokens fuel visited current = false := by
  intro fuel
  induction fuel with
  | zero => intro visited current _ hlt; omega
  | succ f ih =>
    intro visited current hc hlt
    obtain ⟨h, hstep, hhS⟩ := hcl current hc
    have hkey : current ∈ tokens.map Token.id := headOf?_mem_keys tokens current h hstep
    have hnz : current ≠ 0 := fun e => h0 (e ▸ hc)
    unfold walkChain
    rw [if_pos ⟨hnz, hkey⟩]
    by_cases hv : current ∈ visited
    · rw [if_pos hv]
    · rw [if_neg hv]
      have hgetD : (headOf? tokens current).getD 0 = h := by rw [hstep]; rfl
      rw [hgetD]
      refine ih (visited.insert current) h hhS ?_
      have hins : (visited.insert current).toFinset = insert current visited.toFinset := by
        rw [List.insert_of_not_mem hv, List.toFinset_cons]
      rw [hins]
      have hsub : S.toFinset \ insert current visited.toFinset
          ⊆ S.toFinset \ visited.toFinset :=
        Finset.sdiff_subset_sdiff (le_refl _) (Finset.subset_insert _ _)
      have hmem_old : current ∈ S.toFinset \ visited.toFinset :=
        Finset.mem_sdiff.mpr
          ⟨List.mem_toFinset.mpr hc, fun hx => hv (List.mem_toFinset.mp hx)⟩
      have hnot_new : current ∉ S.toFinset \ insert current visited.toFinset := by
        simp
      have hlt2 : (S.toFinset \ insert current visited.toFinset).card
          < (S.toFinset \ visited.toFinset).card :=
        Finset.card_lt_card
          ((Finset.ssubset_iff_of_subset hsub).mpr ⟨current, hmem_old, hnot_new⟩)
      omega

/-- A dependency cycle forces `_check_no_cycles` to report it. -/
theorem check_no_cycles_false_of_cycle (tokens : List Token)
    (h : HasHeadCycle tokens) : check_no_cycles tokens = false := by
  obtain ⟨S, hne, h0, hcl⟩ := h
  obtain ⟨s0, hs0⟩ := List.exists_mem_of_ne_nil S hne
  obtain ⟨h1, hstep, _⟩ := hcl s0 hs0
  have hkey : s0 ∈ tokens.map Token.id := headOf?_mem_keys tokens s0 h1 hstep
  obtain ⟨t, ht, hid⟩ := List.mem_map.mp hkey
  have hSsub : S.toFinset ⊆ (tokens.map Token.id).toFinset := by
    intro x hx
    obtain ⟨hx2, hx3, _⟩ := hcl x (List.mem_toFinset.mp hx)
    exact List.mem_toFinset.mpr (headOf?_mem_keys tokens x hx2 hx3)
  have hcard : (S.toFinset \ ([] : List Int).toFinset).card < tokens.length + 1 := by
    have h1 : (S.toFinset \ ([] : List Int).toFinset).card ≤ S.toFinset.card :=
      Finset.card_le_card (Finset.sdiff_subset)
    have h2 : S.toFinset.card ≤ (tokens.map Token.id).toFinset.card :=
      Finset.card_le_card hSsub
    have h3 : (tokens.map Token.id).toFinset.card ≤ (tokens.map Token.id).length :=
      (tokens.map Token.id).toFinset_card_le
    rw [List.length_map] at h3
    omega
  have hwalk : walkChain tokens (tokens.length + 1) [] t.id = false := by
    rw [hid]
    exact walkChain_in_cycle tokens S h0 hcl (tokens.length + 1) [] s0 hs0 hcard
  unfold check_no_cycles
  rcases hall : tokens.all
      (fun start_token => walkChain tokens (tokens.length + 1) [] start_token.id) with _ | _
  · rfl
  · rw [List.all_eq_true] at hall
    rw [hall t ht] at hwalk
    cases hwalk

/-- Consecutive-step extraction from a `Chain'`: every element except the
last makes a step to some element of the list. -/
theorem chain_mem_step {R : Int → Int → Prop} :
    ∀ (m : List Int), List.Chain' R m → ∀ x ∈ m.dropLast, ∃ y ∈ m, R x y := by
  intro m
  induction m with
  | nil => intro _ x hx; cases hx
  | cons a rest ih =>
    intro hch x hx
    cases rest with
    | nil => cases hx
    | cons b rest2 =>
      rw [show (a :: b :: rest2).dropLast = a :: (b :: rest2).dropLast from rfl] at hx
      rcases List.mem_cons.mp hx with hxa | hx'
      · subst hxa
        exact ⟨b, List.mem_cons_of_mem _ (List.mem_cons_self _ _),
          (List.chain'_cons.mp hch).1⟩
      · obtain ⟨y, hy, hr⟩ := ih (List.Chain'.tail hch) x hx'
        exact ⟨y, List.mem_cons_of_mem _ hy, hr⟩

/-- A revisited id on the walk path yields a genuine cycle set. -/
theorem cycle_extract (tokens : List Token) (q : List Int) (current : Int)
    (hch : List.Chain' (HeadStep tokens) (q ++ [current]))
    (hnz : ∀ x ∈ q, x ≠ 0)
    (hcq : current ∈ q) :
    HasHeadCycle tokens := by
  obtain ⟨pre, post, hq⟩ := List.append_of_mem hcq
  subst hq
  have hsuf : List.Chain' (HeadStep tokens) ((current :: post) ++ [current]) := by
    have heq : (pre ++ current :: post) ++ [current]
        = pre ++ ((current :: post) ++ [current]) := by simp
    rw [heq] at hch
    exact (List.chain'_append.mp hch).2.1
  refine ⟨current :: post, by simp, ?_, ?_⟩
  · intro h0
    rcases List.mem_cons.mp h0 with h | h
    · exact hnz current hcq h.symm
    · exact hnz 0 (List.mem_append.mpr (Or.inr (List.mem_cons_of_mem _ h))) rfl
  · intro x hx
    have hx' : x ∈ ((current :: post) ++ [current]).dropLast := by
      rw [List.dropLast_concat]
      exact hx
    obtain ⟨y, hy, hr⟩ := chain_mem_step _ hsuf x hx'
    refine ⟨y, hr, ?_⟩
    rcases List.mem_append.mp hy with h | h
    · exact h
    · rw [List.mem_singleton.mp h]
      exact List.mem_cons_self _ _

/-- If some walk reports a cycle then a cycle set exists (soundness of the
walk, by induction on the fuel with the walk path as ghost state). -/
theorem cycle_of_walkChain_false (tokens : List Token) :
    ∀ (fuel : Nat) (visited : List Int) (current : Int) (q : List Int),
      (∀ x, x ∈ visited ↔ x ∈ q) →
      List.Chain' (HeadStep tokens) (q ++ [current]) →
      (∀ x ∈ q, x ≠ 0) →
      walkChain tokens fuel visited current = false →
      HasHeadCycle tokens := by
  intro fuel
  induction fuel with
  | zero =>
    intro _ _ _ _ _ _ hw
    exact absurd hw (by simp [walkChain])
  | succ f ih =>
    intro visited current q hvq hch hnz hw
    unfold walkChain at hw
    by_cases hg : current ≠ 0 ∧ current ∈ tokens.map Token.id
    · rw [if_pos hg] at hw
      by_cases hv : current ∈ visited
      · exact cycle_extract tokens q current hch hnz ((hvq current).mp hv)
      · rw [if_neg hv] at hw
        obtain ⟨h, hstep⟩ := (headOf?_isSome_iff tokens current).mpr hg.2
        have hgetD : (headOf? tokens current).getD 0 = h := by rw [hstep]; rfl
        rw [hgetD] at hw
        refine ih (visited.insert current) h (q ++ [current]) ?_ ?_ ?_ hw
        · intro x
          rw [List.insert_of_not_mem hv]
          simp only [List.mem_cons, List.mem_append, List.mem_singleton, hvq x]
          tauto
        · rw [List.chain'_append]
          refine ⟨hch, List.chain'_singleton _, ?_⟩
          intro x hx y hy
          rw [List.getLast?_concat] at hx
          rw [Option.mem_def, Option.some_inj] at hx
          rw [show ([h] : List Int).head? = some h from rfl, Option.mem_def,
            Option.some_inj] at hy
          subst hx
          subst hy
          exact hstep
        · intro x hx
          rcases List.mem_append.mp hx with h1 | h1
          · exact hnz x h1
          · rw [List.mem_singleton.mp h1]
            exact hg.1
    · rw [if_neg hg] at hw
      cases hw

/-- `_check_no_cycles` reports a cycle exactly when one exists. -/
theorem check_no_cycles_false_iff (tokens : List Token) :
    check_no_cycles tokens = false ↔ HasHeadCycle tokens := by
  constructor
  · intro h
    unfold check_no_cycles at h
    have hex : ∃ t ∈ tokens, walkChain tokens (tokens.length + 1) [] t.id = false := by
      by_contra hall
      push_neg at hall
      have : tokens.all
          (fun start_token => walkChain tokens (tokens.length + 1) [] start_token.id) = true := by
        rw [List.all_eq_true]
        intro t ht
        cases hwt : walkChain tokens (tokens.length + 1) [] t.id with
        | false => exact absurd hwt (hall t ht)
        | true => rfl
      rw [this] at h
      cases h
    obtain ⟨t, _, hw⟩ := hex
    exact cycle_of_walkChain_false tokens (tokens.length + 1) [] t.id []
      (by simp) (List.chain'_singleton _) (by simp) hw
  · exact check_no_cycles_false_of_cycle tokens

/-! ## Claim theorems: the validator -/

/-- C1: for every sentence whose structural tokens' head chain forms a cycle
not passing through 0 (self-loops and mutual references included),
`validate_sentence` fails and emits the cycle diagnostic exactly once for
the whole sentence (detection stops at the first cycle found). -/
theorem c1_cycle_fails (lines : List PyStr)
    (h : HasHeadCycle (parseSentence lines).tokens) :
    (validate_sentence lines).1 = false ∧
    (validate_sentence lines).2.count cycleMsg = 1 := by
  have hne : lines ≠ [] := by
    intro he
    subst he
    obtain ⟨S, hS, _, hcl⟩ := h
    obtain ⟨s0, hs0⟩ := List.exists_mem_of_ne_nil S hS
    obtain ⟨hh, hstep, _⟩ := hcl s0 hs0
    have hk := headOf?_mem_keys _ _ _ hstep
    simp [parseSentence, parseFrom, initPS] at hk
  have hcheck : check_no_cycles (parseSentence lines).tokens = false :=
    check_no_cycles_false_of_cycle _ h
  have hcount : (allDiagnostics lines).count cycleMsg = 1 := by
    unfold allDiagnostics
    rw [hcheck]
    simp only [Bool.false_eq_true, if_false, List.count_append]
    rw [List.count_eq_zero.mpr (cycleMsg_not_mem_parse_errors lines),
      List.count_eq_zero.mpr (cycleMsg_not_mem_rootErrors _),
      List.count_eq_zero.mpr (cycleMsg_not_mem_headErrors _ _),
      List.count_eq_zero.mpr (cycleMsg_not_mem_fieldErrors _)]
    simp
  refine ⟨?_, ?_⟩
  · rw [validate_sentence_fst lines hne]
    have hmem : cycleMsg ∈ allDiagnostics lines := by
      rw [← List.count_pos_iff, hcount]
      omega
    exact isEmpty_false_of_mem hmem
  · rw [validate_sentence_snd lines hne]
    exact hcount

/-- C1 witness: scenario D (token 1's head is 2 and token 2's head is 1). -/
theorem c1_cycle_fails_witness :
    (validate_sentence [("1\tA\t_\tX\t_\t_\t2\tdep\t_\t_").data,
        ("2\tB\t_\tY\t_\t_\t1\tdep\t_\t_").data]).1 = false ∧
    (validate_sentence [("1\tA\t_\tX\t_\t_\t2\tdep\t_\t_").data,
        ("2\tB\t_\tY\t_\t_\t1\tdep\t_\t_").data]).2.count cycleMsg = 1 := by
  refine c1_cycle_fails _ ⟨[1, 2], by decide, by decide, ?_⟩
  intro i hi
  rcases List.mem_cons.mp hi with h1 | h1
  · exact ⟨2, by subst h1; decide, by decide⟩
  · rcases List.mem_singleton.mp h1 with rfl
    exact ⟨1, by decide, by decide⟩

/-- C2: a sentence whose structural tokens contain no root, or more than one
root, fails validation; zero roots emit the no-root diagnostic and several
roots emit the multiple-roots diagnostic listing every root id. -/
theorem c2_root_count (lines : List PyStr) (hne : lines ≠ [])
    (hk : ((parseSentence lines).tokens.filter (fun t => t.head == 0)).length = 0
          ∨ 1 < ((parseSentence lines).tokens.filter (fun t => t.head == 0)).length) :
    (validate_sentence lines).1 = false ∧
    (((parseSentence lines).tokens.filter (fun t => t.head == 0)).length = 0 →
      noRootMsg ∈ (validate_sentence lines).2) ∧
    (1 < ((parseSentence lines).tokens.filter (fun t => t.head == 0)).length →
      multiRootMsg (((parseSentence lines).tokens.filter (fun t => t.head == 0)).map Token.id)
        ∈ (validate_sentence lines).2) := by
  have hroots := parseSentence_roots lines
  have hlen : (parseSentence lines).roots.length
      = ((parseSentence lines).tokens.filter (fun t => t.head == 0)).length := by
    rw [hroots, List.length_map]
  have hmem : rootErrors (parseSentence lines).roots ≠ [] ∧
      ∀ s ∈ rootErrors (parseSentence lines).roots, s ∈ allDiagnostics lines := by
    constructor
    · unfold rootErrors
      rcases hk with hk | hk
      · rw [if_pos (by omega)]
        exact List.cons_ne_nil _ _
      · rw [if_neg (by omega), if_pos (by omega)]
        exact List.cons_ne_nil _ _
    · intro s hs
      unfold allDiagnostics
      simp only [List.mem_append]
      exact Or.inl (Or.inl (Or.inl (Or.inr hs)))
  refine ⟨?_, ?_, ?_⟩
  · rw [validate_sentence_fst lines hne]
    obtain ⟨r, hr⟩ := List.exists_mem_of_ne_nil _ hmem.1
    exact isEmpty_false_of_mem (hmem.2 r hr)
  · intro h0
    rw [validate_sentence_snd lines hne]
    refine hmem.2 noRootMsg ?_
    unfold rootErrors
    rw [if_pos (by omega)]
    exact List.mem_singleton.mpr rfl
  · intro h2
    rw [validate_sentence_snd lines hne, ← hroots]
    have : multiRootMsg (parseSentence lines).roots ∈ rootErrors (parseSentence lines).roots := by
      unfold rootErrors
      rw [if_neg (by omega), if_pos (by omega)]
      exact List.mem_singleton.mpr rfl
    exact hmem.2 _ this

/-- C2 witness: scenario B (both tokens have head 0); the diagnostic lists
both offending ids, `[1, 2]`. -/
theorem c2_root_count_witness :
    (validate_sentence [("1\tDog\t_\tNOUN\t_\t_\t0\tnsubj\t_\t_").data,
        ("2\tbarks\t_\tVERB\t_\t_\t0\troot\t_\t_").data]).1 = false ∧
    ("Multiple roots found: tokens [1, 2] all have head=0").data
      ∈ (validate_sentence [("1\tDog\t_\tNOUN\t_\t_\t0\tnsubj\t_\t_").data,
          ("2\tbarks\t_\tVERB\t_\t_\t0\troot\t_\t_").data]).2 := by
  have h := c2_root_count [("1\tDog\t_\tNOUN\t_\t_\t0\tnsubj\t_\t_").data,
      ("2\tbarks\t_\tVERB\t_\t_\t0\troot\t_\t_").data] (by decide) (Or.inr (by decide))
  refine ⟨h.1, ?_⟩
  have h2 := h.2.2 (by decide)
  have heq : multiRootMsg
      (((parseSentence [("1\tDog\t_\tNOUN\t_\t_\t0\tnsubj\t_\t_").data,
          ("2\tbarks\t_\tVERB\t_\t_\t0\troot\t_\t_").data]).tokens.filter
        (fun t => t.head == 0)).map Token.id)
      = ("Multiple roots found: tokens [1, 2] all have head=0").data := by decide
  rwa [heq] at h2

/-- C3: a structural token whose non-zero head is no structural token's id
makes validation fail with a diagnostic naming the token and the head. -/
theorem c3_invalid_head (lines : List PyStr) (t : Token)
    (ht : t ∈ (parseSentence lines).tokens)
    (h1 : t.head ≠ 0)
    (h2 : t.head ∉ (parseSentence lines).tokens.map Token.id) :
    (validate_sentence lines).1 = false ∧
    invalidHeadMsg t.id t.head ∈ (validate_sentence lines).2 := by
  have hne : lines ≠ [] := by
    intro he
    subst he
    cases ht
  have h2' : t.head ∉ (parseSentence lines).token_ids := by
    intro hx
    exact h2 ((parseSentence_token_ids lines t.head).mp hx)
  have hmem : invalidHeadMsg t.id t.head
      ∈ headErrors (parseSentence lines).token_ids (parseSentence lines).tokens :=
    headErrors_mem _ _ t ht h1 h2'
  have hmem2 : invalidHeadMsg t.id t.head ∈ allDiagnostics lines := by
    unfold allDiagnostics
    simp only [List.mem_append]
    exact Or.inl (Or.inl (Or.inr hmem))
  exact ⟨by rw [validate_sentence_fst lines hne]; exact isEmpty_false_of_mem hmem2,
    by rw [validate_sentence_snd lines hne]; exact hmem2⟩

/-- C3 witness: scenario C (token 1 has head 5, no token with id 5). -/
theorem c3_invalid_head_witness :
    (validate_sentence [("1\tDog\t_\tNOUN\t_\t_\t5\tnsubj\t_\t_").data,
        ("2\tbarks\t_\tVERB\t_\t_\t0\troot\t_\t_").data]).1 = false ∧
    ("Token 1 has invalid head 5").data
      ∈ (validate_sentence [("1\tDog\t_\tNOUN\t_\t_\t5\tnsubj\t_\t_").data,
          ("2\tbarks\t_\tVERB\t_\t_\t0\troot\t_\t_").data]).2 := by
  have h := c3_invalid_head [("1\tDog\t_\tNOUN\t_\t_\t5\tnsubj\t_\t_").data,
      ("2\tbarks\t_\tVERB\t_\t_\t0\troot\t_\t_").data]
    ⟨1, ("Dog").data, ("_").data, ("NOUN").data, 5, ("nsubj").data, 1⟩
    (by decide) (by decide) (by decide)
  exact ⟨h.1, by
    have heq : invalidHeadMsg 1 5 = ("Token 1 has invalid head 5").data := by decide
    have h2 := h.2
    rwa [show (⟨1, ("Dog").data, ("_").data, ("NOUN").data, 5,
      ("nsubj").data, 1⟩ : Token).id = 1 from rfl,
      show (⟨1, ("Dog").data, ("_").data, ("NOUN").data, 5,
        ("nsubj").data, 1⟩ : Token).head = 5 from rfl, heq] at h2⟩

/-- C9: the validator is stateless across calls — two invocations on the
same sentence agree on the verdict and on the diagnostics retrievable via
`get_errors`, whatever sentences each instance validated before, because
`self.errors = []` replaces the diagnostic list in full before checking. -/
theorem c9_stateless (hist1 hist2 : List (List PyStr)) (v0 : Validator)
    (lines : List PyStr) :
    (validateMethod (runValidator v0 hist1) lines).1
      = (validateMethod (runValidator v0 hist2) lines).1 ∧
    get_errors (validateMethod (runValidator v0 hist1) lines).2
      = get_errors (validateMethod (runValidator v0 hist2) lines).2 := by
  constructor <;> rfl

/-- C10: token-id uniqueness is never checked — a sentence with two
structural token lines sharing id 1 (ids parse to `[1, 1, 2]`) passes
validation with an empty diagnostic list. -/
theorem c10_duplicate_ids_pass :
    (parseSentence [("1\tDog\t_\tNOUN\t_\t_\t2\tnsubj\t_\t_").data,
        ("1\tcat\t_\tNOUN\t_\t_\t2\tnsubj\t_\t_").data,
        ("2\tbarks\t_\tVERB\t_\t_\t0\troot\t_\t_").data]).tokens.map Token.id = [1, 1, 2] ∧
    validate_sentence [("1\tDog\t_\tNOUN\t_\t_\t2\tnsubj\t_\t_").data,
        ("1\tcat\t_\tNOUN\t_\t_\t2\tnsubj\t_\t_").data,
        ("2\tbarks\t_\tVERB\t_\t_\t0\troot\t_\t_").data] = (true, []) := by
  constructor
  · decide
  · decide

/-! ## Per-line behaviour (C5) -/

/-- Tokens produced by the parse loop carry line numbers inside the
processed range. -/
theorem parseFrom_line_num_range (l : List PyStr) :
    ∀ (st : ParsedSentence) (j : Nat), ∀ t ∈ (parseFrom st j l).tokens,
      t ∈ st.tokens ∨ (j ≤ t.line_num ∧ t.line_num < j + l.length) := by
  induction l with
  | nil => intro st j t ht; exact Or.inl ht
  | cons line rest ih =>
    intro st j t ht
    rcases ih (processLine st j line) (j + 1) t ht with hmem | hrange
    · obtain ⟨tnew, es, htok, _, _, _, hln⟩ := processLine_shape st j line
      rw [htok] at hmem
      rcases List.mem_append.mp hmem with h | h
      · exact Or.inl h
      · right
        rw [hln t h]
        simp only [List.length_cons]
        omega
    · right
      simp only [List.length_cons]
      omega

/-- Splitting `parseSentence` at line index `k` (0-based; the loop numbers
it `k + 1`). -/
theorem parseSentence_decomp (lines : List PyStr) (k : Nat) (hk : k < lines.length) :
    parseSentence lines =
      parseFrom (processLine (parseFrom initPS 1 (lines.take k)) (k + 1) lines[k])
        (k + 2) (lines.drop (k + 1)) := by
  have h2 : lines.drop k = lines[k] :: lines.drop (k + 1) := List.drop_eq_getElem_cons hk
  have h3 : (lines.take k).length = k := by
    rw [List.length_take]
    omega
  calc parseSentence lines
      = parseFrom initPS 1 (lines.take k ++ lines.drop k) := by
        rw [List.take_append_drop]
        rfl
    _ = parseFrom (parseFrom initPS 1 (lines.take k)) (1 + (lines.take k).length)
          (lines.drop k) := parseFrom_append _ _ _ _
    _ = parseFrom (processLine (parseFrom initPS 1 (lines.take k)) (k + 1) lines[k])
          (k + 2) (lines.drop (k + 1)) := by
        rw [h2, h3, show 1 + k = k + 1 from by omega]
        rfl

/-- A line whose parse step leaves the token list unchanged contributes no
token: no parsed token carries its line number. -/
theorem no_token_from_inert_line (lines : List PyStr) (k : Nat) (hk : k < lines.length)
    (hinert : (processLine (parseFrom initPS 1 (lines.take k)) (k + 1) lines[k]).tokens
      = (parseFrom initPS 1 (lines.take k)).tokens) :
    ∀ t ∈ (parseSentence lines).tokens, t.line_num ≠ k + 1 := by
  intro t ht hln
  rw [parseSentence_decomp lines k hk] at ht
  have h3 : (lines.take k).length = k := by
    rw [List.length_take]
    omega
  rcases parseFrom_line_num_range _ _ _ t ht with hmem | hrange
  · rw [hinert] at hmem
    rcases parseFrom_line_num_range _ _ _ t hmem with hmem2 | hrange2
    · simp [initPS] at hmem2
    · rw [h3] at hrange2
      omega
  · omega

/-- C5: a token line with a field count other than 10 — a hyphen or period
in its id notwithstanding — appends exactly one field-count diagnostic,
contributes no token, and makes the whole sentence fail; a 10-field line
whose id contains a hyphen or period is skipped silently, leaving the parse
state untouched (so it takes part in no root, head or cycle check). -/
theorem c5_field_shape (lines : List PyStr) (k : Nat) (hk : k < lines.length) :
    ((splitTab lines[k]).length ≠ 10 →
      (∀ st : ParsedSentence, processLine st (k + 1) lines[k]
          = { st with errors :=
                st.errors ++ [errFieldCount (k + 1) (splitTab lines[k]).length] })
      ∧ errFieldCount (k + 1) (splitTab lines[k]).length ∈ (validate_sentence lines).2
      ∧ (validate_sentence lines).1 = false
      ∧ ∀ t ∈ (parseSentence lines).tokens, t.line_num ≠ k + 1)
    ∧ ((splitTab lines[k]).length = 10 →
      (((splitTab lines[k]).getD 0 []).contains '-' = true
        ∨ ((splitTab lines[k]).getD 0 []).contains '.' = true) →
      (∀ st : ParsedSentence, processLine st (k + 1) lines[k] = st)
      ∧ ∀ t ∈ (parseSentence lines).tokens, t.line_num ≠ k + 1) := by
  have hne : lines ≠ [] := by
    intro he
    rw [he] at hk
    cases hk
  constructor
  · intro h10
    have hstep := fun st => processLine_badCount st (k + 1) lines[k] h10
    have hmem : errFieldCount (k + 1) (splitTab lines[k]).length
        ∈ (parseSentence lines).errors := by
      rw [parseSentence_decomp lines k hk]
      obtain ⟨es, hes⟩ := parseFrom_errors_extend (lines.drop (k + 1))
        (processLine (parseFrom initPS 1 (lines.take k)) (k + 1) lines[k]) (k + 2)
      rw [hes, hstep]
      simp
    have hmem2 : errFieldCount (k + 1) (splitTab lines[k]).length
        ∈ allDiagnostics lines := by
      unfold allDiagnostics
      simp only [List.mem_append]
      exact Or.inl (Or.inl (Or.inl (Or.inl hmem)))
    refine ⟨hstep, ?_, ?_, ?_⟩
    · rw [validate_sentence_snd lines hne]
      exact hmem2
    · rw [validate_sentence_fst lines hne]
      exact isEmpty_false_of_mem hmem2
    · refine no_token_from_inert_line lines k hk ?_
      rw [hstep]
  · intro h10 hc
    have hstep := fun st => processLine_skip st (k + 1) lines[k] h10 hc
    exact ⟨hstep, no_token_from_inert_line lines k hk (by rw [hstep])⟩

/-- C5 witness: a 3-field hyphen-id line records `"Line 1: Expected 10
fields, got 3"` and fails the sentence, while a 10-field hyphen-id line
leaves the parse state untouched. -/
theorem c5_field_shape_witness :
    (validate_sentence [("3-4\ta\tb").data,
        ("1\tDog\t_\tNOUN\t_\t_\t0\troot\t_\t_").data,
        ("3-4\tx\tx\tx\tx\tx\tx\tx\tx\tx").data]).1 = false ∧
    ("Line 1: Expected 10 fields, got 3").data
      ∈ (validate_sentence [("3-4\ta\tb").data,
          ("1\tDog\t_\tNOUN\t_\t_\t0\troot\t_\t_").data,
          ("3-4\tx\tx\tx\tx\tx\tx\tx\tx\tx").data]).2 ∧
    processLine initPS 3 (("3-4\tx\tx\tx\tx\tx\tx\tx\tx\tx").data) = initPS := by
  have ha := (c5_field_shape [("3-4\ta\tb").data,
      ("1\tDog\t_\tNOUN\t_\t_\t0\troot\t_\t_").data,
      ("3-4\tx\tx\tx\tx\tx\tx\tx\tx\tx").data] 0 (by decide)).1 (by decide)
  have hb := (c5_field_shape [("3-4\ta\tb").data,
      ("1\tDog\t_\tNOUN\t_\t_\t0\troot\t_\t_").data,
      ("3-4\tx\tx\tx\tx\tx\tx\tx\tx\tx").data] 2 (by decide)).2 (by decide)
      (Or.inl (by decide))
  refine ⟨ha.2.2.1, ?_, hb.1 initPS⟩
  exact ha.2.1

/-! ## Pass iff no diagnostics (C4) -/

/-- The claim's positive direction, amended with the missing hypothesis
that no line-level diagnostic was recorded by the parse loop; together
with it: pass iff the diagnostic list is empty, for every sentence. -/
theorem c4_pass_iff (lines : List PyStr)
    (hne : lines ≠ [])
    (hperr : (parseSentence lines).errors = [])
    (hroot : ((parseSentence lines).tokens.filter (fun t => t.head == 0)).length = 1)
    (hheads : ∀ t ∈ (parseSentence lines).tokens,
      t.head = 0 ∨ t.head ∈ (parseSentence lines).tokens.map Token.id)
    (hcyc : ¬ HasHeadCycle (parseSentence lines).tokens)
    (hfields : ∀ t ∈ (parseSentence lines).tokens, FieldsOK t) :
    validate_sentence lines = (true, []) ∧
    ∀ lines' : List PyStr,
      ((validate_sentence lines').1 = true ↔ (validate_sentence lines').2 = []) := by
  have hcheck : check_no_cycles (parseSentence lines).tokens = true := by
    cases hcc : check_no_cycles (parseSentence lines).tokens with
    | false => exact absurd ((check_no_cycles_false_iff _).mp hcc) hcyc
    | true => rfl
  have hall : allDiagnostics lines = [] := by
    unfold allDiagnostics
    rw [hperr, rootErrors_one _ (by rw [parseSentence_roots lines, List.length_map]; exact hroot),
      headErrors_nil _ _ (fun t ht => by
        rcases hheads t ht with h | h
        · exact Or.inl h
        · exact Or.inr ((parseSentence_token_ids lines t.head).mpr h)),
      hcheck, fieldErrors_nil _ hfields]
    rfl
  constructor
  · have h1 : (validate_sentence lines).1 = true := by
      rw [validate_sentence_fst lines hne, hall]
      rfl
    have h2 : (validate_sentence lines).2 = [] := by
      rw [validate_sentence_snd lines hne, hall]
    exact Prod.ext h1 h2
  · intro lines'
    cases hl : lines' with
    | nil =>
      constructor
      · intro h
        cases h
      · intro h
        simp [validate_sentence] at h
    | cons a l =>
      rw [validate_sentence_fst (a :: l) (List.cons_ne_nil a l),
        validate_sentence_snd (a :: l) (List.cons_ne_nil a l)]
      exact List.isEmpty_iff

/-- C4 witness: scenario A passes with an empty diagnostic list. -/
theorem c4_pass_iff_witness :
    validate_sentence [("1\tDog\t_\tNOUN\t_\t_\t2\tnsubj\t_\t_").data,
      ("2\tbarks\t_\tVERB\t_\t_\t0\troot\t_\t_").data] = (true, []) := by
  refine (c4_pass_iff [("1\tDog\t_\tNOUN\t_\t_\t2\tnsubj\t_\t_").data,
      ("2\tbarks\t_\tVERB\t_\t_\t0\troot\t_\t_").data]
    (by decide) (by decide) (by decide) (by decide) ?_ (by decide)).1
  intro hcy
  have hf := check_no_cycles_false_of_cycle _ hcy
  have ht : check_no_cycles (parseSentence
      [("1\tDog\t_\tNOUN\t_\t_\t2\tnsubj\t_\t_").data,
       ("2\tbarks\t_\tVERB\t_\t_\t0\troot\t_\t_").data]).tokens = true := by decide
  exact Bool.false_ne_true (hf.symm.trans ht)

/-- C4 counterexample: the claim as frozen omits the line-shape condition.
This sentence is non-empty, its structural tokens have exactly one root,
no invalid head, no cycle, and all required fields, yet `validate_sentence`
fails — the extra 1-field line `"x"` records a field-count diagnostic. -/
theorem c4_counterexample :
    [("1\tDog\t_\tNOUN\t_\t_\t0\troot\t_\t_").data, ("x").data] ≠ ([] : List PyStr) ∧
    ((parseSentence [("1\tDog\t_\tNOUN\t_\t_\t0\troot\t_\t_").data,
        ("x").data]).tokens.filter (fun t => t.head == 0)).length = 1 ∧
    (∀ t ∈ (parseSentence [("1\tDog\t_\tNOUN\t_\t_\t0\troot\t_\t_").data,
        ("x").data]).tokens,
      t.head = 0 ∨ t.head ∈ (parseSentence [("1\tDog\t_\tNOUN\t_\t_\t0\troot\t_\t_").data,
        ("x").data]).tokens.map Token.id) ∧
    ¬ HasHeadCycle (parseSentence [("1\tDog\t_\tNOUN\t_\t_\t0\troot\t_\t_").data,
        ("x").data]).tokens ∧
    (∀ t ∈ (parseSentence [("1\tDog\t_\tNOUN\t_\t_\t0\troot\t_\t_").data,
        ("x").data]).tokens, FieldsOK t) ∧
    (validate_sentence [("1\tDog\t_\tNOUN\t_\t_\t0\troot\t_\t_").data,
        ("x").data]).1 = false := by
  refine ⟨by decide, by decide, by decide, ?_, by decide, by decide⟩
  intro hcy
  have hf := check_no_cycles_false_of_cycle _ hcy
  have ht : check_no_cycles (parseSentence
      [("1\tDog\t_\tNOUN\t_\t_\t0\troot\t_\t_").data, ("x").data]).tokens = true := by decide
  exact Bool.false_ne_true (hf.symm.trans ht)

/-! ## Driver lemmas: counters and the summary (C7, C8) -/

/-- One driver step preserves `total = valid + invalid`. -/
theorem processDriverLine_counters (st : DriverState) (raw : PyStr)
    (h : st.total_sentences = st.valid_sentences + st.invalid_sentences) :
    (processDriverLine st raw).total_sentences
      = (processDriverLine st raw).valid_sentences
        + (processDriverLine st raw).invalid_sentences := by
  simp only [processDriverLine]
  split
  · split <;> exact h
  · split
    · unfold onBlankLine
      split
      · exact h
      · unfold finishSentence
        split <;> simp <;> omega
    · exact h

/-- The driver loop preserves `total = valid + invalid`. -/
theorem runLines_counters (l : List PyStr) :
    ∀ st : DriverState,
      st.total_sentences = st.valid_sentences + st.invalid_sentences →
      (runLines st l).total_sentences
        = (runLines st l).valid_sentences + (runLines st l).invalid_sentences := by
  induction l with
  | nil => exact fun st h => h
  | cons line rest ih =>
    intro st h
    exact ih (processDriverLine st line) (processDriverLine_counters st line h)

/-- C7: after `clean_conllu_file` on any input, `total == valid + invalid`
(each completed sentence block, the final unterminated one included,
increments `total` once and exactly one of `valid`/`invalid` once). -/
theorem c7_counter_consistency (input_lines : List PyStr) :
    (clean_conllu_file input_lines).total_sentences
      = (clean_conllu_file input_lines).valid_sentences
        + (clean_conllu_file input_lines).invalid_sentences := by
  have hrun := runLines_counters input_lines initDS rfl
  unfold clean_conllu_file atEOF
  split
  · exact hrun
  · unfold finishSentence
    split <;> simp <;> omega

/-- Comment-only and blank lines complete no sentence: the token buffer
stays empty and `total` does not move. -/
theorem runLines_no_tokens (l : List PyStr) :
    ∀ st : DriverState,
      (∀ line ∈ l, startsWithHash (rstripNl line) = true
        ∨ pyIsBlank (rstripNl line) = true) →
      st.current_sentence = [] →
      (runLines st l).current_sentence = [] ∧
      (runLines st l).total_sentences = st.total_sentences := by
  induction l with
  | nil => exact fun st _ h => ⟨h, rfl⟩
  | cons line rest ih =>
    intro st hcls hemp
    have hstep : (processDriverLine st line).current_sentence = [] ∧
        (processDriverLine st line).total_sentences = st.total_sentences := by
      simp only [processDriverLine]
      by_cases hh : startsWithHash (rstripNl line) = true
      · rw [if_pos hh]
        split <;> exact ⟨hemp, rfl⟩
      · rcases hcls line (List.mem_cons_self line rest) with hc | hc
        · exact absurd hc hh
        · rw [if_neg hh, if_pos hc]
          unfold onBlankLine
          rw [if_pos (by rw [hemp]; rfl)]
          exact ⟨hemp, rfl⟩
    obtain ⟨h1, h2⟩ := ih (processDriverLine st line)
      (fun x hx => hcls x (List.mem_cons_of_mem line hx)) hstep.1
    exact ⟨h1, h2.trans hstep.2⟩

/-- C8: the summary divides only when `total > 0` — the value is then the
exact rational `valid/total*100` — and an input of comments and blank lines
only (no sentences) yields `total = 0` and the division-free `0%` branch. -/
theorem c8_success_rate (input_lines : List PyStr) :
    ((clean_conllu_file input_lines).total_sentences = 0 →
      success_rate (clean_conllu_file input_lines).valid_sentences
        (clean_conllu_file input_lines).total_sentences = none)
    ∧ (0 < (clean_conllu_file input_lines).total_sentences →
      success_rate (clean_conllu_file input_lines).valid_sentences
        (clean_conllu_file input_lines).total_sentences
        = some (((clean_conllu_file input_lines).valid_sentences : ℚ)
            / ((clean_conllu_file input_lines).total_sentences : ℚ) * 100))
    ∧ ((∀ line ∈ input_lines, startsWithHash (rstripNl line) = true
          ∨ pyIsBlank (rstripNl line) = true) →
      (clean_conllu_file input_lines).total_sentences = 0) := by
  refine ⟨?_, ?_, ?_⟩
  · intro h0
    rw [success_rate, if_neg (by omega)]
  · intro hpos
    rw [success_rate, if_pos hpos]
  · intro hcls
    obtain ⟨h1, h2⟩ := runLines_no_tokens input_lines initDS hcls rfl
    unfold clean_conllu_file atEOF
    rw [if_pos (by rw [h1]; rfl)]
    exact h2

/-- C8 witness: a comment-only file reaches the `0%` branch without any
division. -/
theorem c8_success_rate_witness :
    (clean_conllu_file [("# only a comment").data]).total_sentences = 0 ∧
    success_rate (clean_conllu_file [("# only a comment").data]).valid_sentences
      (clean_conllu_file [("# only a comment").data]).total_sentences = none := by
  have h := c8_success_rate [("# only a comment").data]
  have h0 := h.2.2 (by decide)
  exact ⟨h0, h.1 h0⟩

/-! ## Idempotence of the cleaner (C6)

The first run's output is a concatenation of *good blocks* — comment lines,
then the token lines of a sentence that validates, then one blank line, all
free of trailing newlines.  Replaying such a stream reproduces it verbatim. -/

/-- `rstrip('\n')` is idempotent. -/
theorem rstripNl_idem (l : PyStr) : rstripNl (rstripNl l) = rstripNl l := by
  unfold rstripNl
  rw [List.reverse_reverse]
  have hdw : ∀ m : PyStr, (m.dropWhile (fun c => c = '\n')).dropWhile (fun c => c = '\n')
      = m.dropWhile (fun c => c = '\n') := by
    intro m
    induction m with
    | nil => rfl
    | cons a t ih =>
      by_cases ha : a = '\n'
      · rw [List.dropWhile_cons_of_pos (by simp [ha]), ih]
      · rw [List.dropWhile_cons_of_neg (by simp [ha]),
          List.dropWhile_cons_of_neg (by simp [ha])]
  rw [hdw]

/-- One block of the cleaned output: comment lines, a validating non-empty
sentence, one blank line. -/
def GoodBlock (b : List PyStr) : Prop :=
  ∃ cs ts : List PyStr,
    b = cs ++ ts ++ [[]] ∧
    (∀ c ∈ cs, startsWithHash c = true ∧ rstripNl c = c) ∧
    (∀ t ∈ ts, startsWithHash t = false ∧ pyIsBlank t = false ∧ rstripNl t = t) ∧
    ts ≠ [] ∧
    (validate_sentence ts).1 = true

/-- A cleaned output stream: a concatenation of good blocks. -/
def GoodOut (l : List PyStr) : Prop :=
  ∃ blocks : List (List PyStr), l = blocks.flatten ∧ ∀ b ∈ blocks, GoodBlock b

/-- The driver invariant: output well-formed so far, buffered comments all
comments, buffered token lines all non-comment non-blank. -/
def DriverInv (st : DriverState) : Prop :=
  GoodOut st.out ∧
  (∀ c ∈ st.current_comments, startsWithHash c = true ∧ rstripNl c = c) ∧
  (∀ t ∈ st.current_sentence, startsWithHash t = false ∧ pyIsBlank t = false ∧ rstripNl t = t)

/-- Completing a pending sentence keeps the output well-formed. -/
theorem finishSentence_out_good (st : DriverState) (h : DriverInv st)
    (hne : st.current_sentence ≠ []) : GoodOut (finishSentence st).out := by
  obtain ⟨hout, hcom, htok⟩ := h
  unfold finishSentence
  split
  · next hval =>
    obtain ⟨blocks, hjoin, hgb⟩ := hout
    refine ⟨blocks ++ [st.current_comments ++ st.current_sentence ++ [[]]], ?_, ?_⟩
    · simp only [List.flatten_append, List.flatten_cons, List.flatten_nil, List.append_nil, ← hjoin]
      simp [List.append_assoc]
    · intro b hb
      rcases List.mem_append.mp hb with hbm | hbm
      · exact hgb b hbm
      · rw [List.mem_singleton.mp hbm]
        exact ⟨st.current_comments, st.current_sentence, rfl, hcom, htok, hne, hval⟩
  · exact hout

/-- One driver step preserves the invariant. -/
theorem processDriverLine_inv (st : DriverState) (raw : PyStr) (h : DriverInv st) :
    DriverInv (processDriverLine st raw) := by
  obtain ⟨hout, hcom, htok⟩ := h
  simp only [processDriverLine]
  by_cases hh : startsWithHash (rstripNl raw) = true
  · rw [if_pos hh]
    have hcom2 : ∀ c ∈ st.current_comments ++ [rstripNl raw],
        startsWithHash c = true ∧ rstripNl c = c := by
      intro c hc
      rcases List.mem_append.mp hc with hcm | hcm
      · exact hcom c hcm
      · rw [List.mem_singleton.mp hcm]
        exact ⟨hh, rstripNl_idem raw⟩
    split <;> exact ⟨hout, hcom2, htok⟩
  · rw [if_neg hh]
    by_cases hb : pyIsBlank (rstripNl raw) = true
    · rw [if_pos hb]
      unfold onBlankLine
      split
      · exact ⟨hout, hcom, htok⟩
      · next hne =>
        refine ⟨?_, by simp, by simp⟩
        exact finishSentence_out_good st ⟨hout, hcom, htok⟩
          (fun he => hne (by rw [he]; rfl))
    · rw [if_neg hb]
      refine ⟨hout, hcom, ?_⟩
      intro t ht
      rcases List.mem_append.mp ht with htm | htm
      · exact htok t htm
      · rw [List.mem_singleton.mp htm]
        exact ⟨Bool.eq_false_iff.mpr hh, Bool.eq_false_iff.mpr hb, rstripNl_idem raw⟩

/-- The driver loop preserves the invariant. -/
theorem runLines_inv (l : List PyStr) :
    ∀ st : DriverState, DriverInv st → DriverInv (runLines st l) := by
  induction l with
  | nil => exact fun st h => h
  | cons line rest ih =>
    intro st h
    exact ih (processDriverLine st line) (processDriverLine_inv st line h)

/-- After end-of-stream handling the whole output is well-formed. -/
theorem atEOF_out_good (st : DriverState) (h : DriverInv st) :
    GoodOut (atEOF st).out := by
  unfold atEOF
  split
  · exact h.1
  · next hne =>
    exact finishSentence_out_good st h (fun he => hne (by rw [he]; rfl))

/-- The output of a full `clean_conllu_file` run is a concatenation of good
blocks. -/
theorem clean_out_good (input_lines : List PyStr) :
    GoodOut (clean_conllu_file input_lines).out :=
  atEOF_out_good _ (runLines_inv input_lines initDS
    ⟨⟨[], rfl, by simp⟩, by simp [initDS], by simp [initDS]⟩)

/-- Splitting the driver loop at a line boundary. -/
theorem runLines_append (l₁ l₂ : List PyStr) :
    ∀ st : DriverState, runLines st (l₁ ++ l₂) = runLines (runLines st l₁) l₂ := by
  induction l₁ with
  | nil => intro st; rfl
  | cons line rest ih => intro st; exact ih (processDriverLine st line)

/-- Replaying comment lines only appends them to the comment buffer (and
possibly updates the sentence id used for logging). -/
theorem runLines_comments (cs : List PyStr) :
    ∀ st : DriverState, (∀ c ∈ cs, startsWithHash c = true ∧ rstripNl c = c) →
      ∃ sid, runLines st cs =
        { st with current_comments := st.current_comments ++ cs, sent_id := sid } := by
  induction cs with
  | nil =>
    intro st _
    refine ⟨st.sent_id, ?_⟩
    cases st
    simp [runLines]
  | cons c rest ih =>
    intro st hc
    obtain ⟨h1, h2⟩ := hc c (List.mem_cons_self c rest)
    have hstep : ∃ s', processDriverLine st c =
        { st with current_comments := st.current_comments ++ [c], sent_id := s' } := by
      simp only [processDriverLine]
      rw [h2, if_pos h1]
      split
      · exact ⟨_, rfl⟩
      · exact ⟨st.sent_id, rfl⟩
    obtain ⟨s', hs'⟩ := hstep
    obtain ⟨sid, hsid⟩ := ih
      { st with current_comments := st.current_comments ++ [c], sent_id := s' }
      (fun x hx => hc x (List.mem_cons_of_mem c hx))
    refine ⟨sid, ?_⟩
    show runLines (processDriverLine st c) rest = _
    rw [hs', hsid]
    simp

/-- Replaying token lines only appends them to the sentence buffer. -/
theorem runLines_tokens (ts : List PyStr) :
    ∀ st : DriverState,
      (∀ t ∈ ts, startsWithHash t = false ∧ pyIsBlank t = false ∧ rstripNl t = t) →
      runLines st ts = { st with current_sentence := st.current_sentence ++ ts } := by
  induction ts with
  | nil =>
    intro st _
    cases st
    simp [runLines]
  | cons t rest ih =>
    intro st ht
    obtain ⟨h1, h2, h3⟩ := ht t (List.mem_cons_self t rest)
    have hstep : processDriverLine st t =
        { st with current_sentence := st.current_sentence ++ [t] } := by
      simp only [processDriverLine]
      rw [h3, if_neg (by rw [h1]; exact Bool.false_ne_true),
        if_neg (by rw [h2]; exact Bool.false_ne_true)]
    show runLines (processDriverLine st t) rest = _
    rw [hstep, ih _ (fun x hx => ht x (List.mem_cons_of_mem t hx))]
    simp

/-- An empty line is a blank line for the driver. -/
theorem processDriverLine_blank (st : DriverState) :
    processDriverLine st [] = onBlankLine st := rfl

/-- Replaying one good block from a state with empty buffers emits that
block verbatim and returns to empty buffers. -/
theorem runLines_block (cs ts : List PyStr) (st : DriverState)
    (hcs : ∀ c ∈ cs, startsWithHash c = true ∧ rstripNl c = c)
    (hts : ∀ t ∈ ts, startsWithHash t = false ∧ pyIsBlank t = false ∧ rstripNl t = t)
    (htne : ts ≠ [])
    (hval : (validate_sentence ts).1 = true)
    (hemp_s : st.current_sentence = [])
    (hemp_c : st.current_comments = []) :
    runLines st (cs ++ ts ++ [[]]) =
      { st with
        out := st.out ++ cs ++ ts ++ [[]],
        valid_sentences := st.valid_sentences + 1,
        total_sentences := st.total_sentences + 1,
        current_sentence := [],
        current_comments := [],
        sent_id := none } := by
  obtain ⟨sid, h1⟩ := runLines_comments cs st hcs
  rw [show cs ++ ts ++ [[]] = cs ++ (ts ++ [[]]) from by simp,
    runLines_append, runLines_append, h1,
    runLines_tokens ts _ hts]
  show onBlankLine _ = _
  unfold onBlankLine
  rw [if_neg (by
    simp only [hemp_s, hemp_c]
    cases ts with
    | nil => exact absurd rfl htne
    | cons a l => simp)]
  unfold finishSentence
  rw [if_pos (by simpa [hemp_s] using hval)]
  simp [hemp_s, hemp_c]

/-- Replaying a concatenation of good blocks emits them all verbatim. -/
theorem runLines_blocks (blocks : List (List PyStr)) :
    ∀ st : DriverState, (∀ b ∈ blocks, GoodBlock b) →
      st.current_sentence = [] → st.current_comments = [] →
      ∃ st' : DriverState, runLines st blocks.flatten = st' ∧
        st'.out = st.out ++ blocks.flatten ∧
        st'.current_sentence = [] ∧ st'.current_comments = [] := by
  induction blocks with
  | nil =>
    intro st _ h1 h2
    exact ⟨st, rfl, by simp, h1, h2⟩
  | cons b rest ih =>
    intro st hgb h1 h2
    obtain ⟨cs, ts, hb, hcs, hts, htne, hval⟩ := hgb b (List.mem_cons_self b rest)
    rw [List.flatten_cons, runLines_append, hb,
      runLines_block cs ts st hcs hts htne hval h1 h2]
    obtain ⟨st', hrun, hout, hs, hc⟩ := ih
      { st with
        out := st.out ++ cs ++ ts ++ [[]],
        valid_sentences := st.valid_sentences + 1,
        total_sentences := st.total_sentences + 1,
        current_sentence := [],
        current_comments := [],
        sent_id := none }
      (fun x hx => hgb x (List.mem_cons_of_mem b hx)) rfl rfl
    refine ⟨st', hrun, ?_, hs, hc⟩
    rw [hout]
    simp

/-- C6: cleaning is idempotent — running `clean_conllu_file` on its own
output reproduces that output byte for byte (every emitted sentence passes
validation again and is re-emitted with its one trailing blank line). -/
theorem c6_idempotent (input_lines : List PyStr) :
    (clean_conllu_file (clean_conllu_file input_lines).out).out
      = (clean_conllu_file input_lines).out := by
  obtain ⟨blocks, hjoin, hgb⟩ := clean_out_good input_lines
  rw [hjoin]
  obtain ⟨st', hrun, hout, hs, hc⟩ := runLines_blocks blocks initDS hgb rfl rfl
  unfold clean_conllu_file
  rw [hrun]
  unfold atEOF
  rw [if_pos (by rw [hs]; rfl), hout]
  simp [initDS]

/-- Fuel adequacy for the walk: beyond `(number of unvisited keys) + 1`
steps the answer no longer depends on the fuel, so the `tokens.length + 1`
bound used in `check_no_cycles` computes the unbounded Python `while` loop
exactly (each iteration either exits or moves a fresh key into `visited`). -/
theorem walkChain_fuel_stable (tokens : List Token) :
    ∀ (fuel : Nat) (visited : List Int) (current : Int),
      ((tokens.map Token.id).toFinset \ visited.toFinset).card < fuel →
      walkChain tokens fuel visited current
        = walkChain tokens (fuel + 1) visited current := by
  intro fuel
  induction fuel with
  | zero => intro visited current h; omega
  | succ f ih =>
    intro visited current h
    show walkChain tokens (f + 1) visited current
      = walkChain tokens (f + 1 + 1) visited current
    unfold walkChain
    by_cases hg : current ≠ 0 ∧ current ∈ tokens.map Token.id
    · rw [if_pos hg, if_pos hg]
      by_cases hv : current ∈ visited
      · rw [if_pos hv, if_pos hv]
      · rw [if_neg hv, if_neg hv]
        refine ih (visited.insert current) _ ?_
        have hins : (visited.insert current).toFinset
            = insert current visited.toFinset := by
          rw [List.insert_of_not_mem hv, List.toFinset_cons]
        rw [hins]
        have hsub : (tokens.map Token.id).toFinset \ insert current visited.toFinset
            ⊆ (tokens.map Token.id).toFinset \ visited.toFinset :=
          Finset.sdiff_subset_sdiff (le_refl _) (Finset.subset_insert _ _)
        have hmem_old : current ∈ (tokens.map Token.id).toFinset \ visited.toFinset :=
          Finset.mem_sdiff.mpr
            ⟨List.mem_toFinset.mpr hg.2, fun hx => hv (List.mem_toFinset.mp hx)⟩
        have hlt2 := Finset.card_lt_card
          ((Finset.ssubset_iff_of_subset hsub).mpr ⟨current, hmem_old, by simp⟩)
        omega
    · rw [if_neg hg, if_neg hg]
